import Mathlib

/-!
Verification of the financial-metric extraction core of
`extract_financial_metrics.py` (claims about `parse_amount`,
`scan_for_number` and `extract_metrics_from_text`).

The Python code is shallowly embedded: strings are `List Char` (with
`String` wrappers at the outer interfaces), Python floats are idealised
as exact rationals (`ℚ`) except that the special IEEE values produced by
`float("inf") / float("-inf") / float("nan")` are modelled explicitly by
the `PyFloat` type, since one claim turns on them.  Rounding to binary
doubles and overflow to infinity are not modelled; regular-expression
semantics (`re.match`, `re.search`, `re.split`, `re.sub`) are embedded
by hand for the concrete patterns appearing in the source; `\s` and `\d`
are modelled over their ASCII ranges.
-/

set_option maxRecDepth 4000

/-- Python float values: a finite value (idealised as an exact rational),
a signed infinity (`inf true` is `-inf`), or `nan`.  These are the values
`float(...)` can return. -/
inductive PyFloat : Type where
  | fin : ℚ → PyFloat
  | inf : Bool → PyFloat
  | nan : PyFloat
deriving DecidableEq, Repr

namespace PyFloat

/-- Python truthiness of a float: `0.0` is falsy, everything else
(including `inf` and `nan`) is truthy. -/
def truthy : PyFloat → Bool
  | fin q => decide (q ≠ 0)
  | _ => true

/-- Python `+` on floats (IEEE semantics on the modelled values). -/
def add : PyFloat → PyFloat → PyFloat
  | nan, _ => nan
  | _, nan => nan
  | inf s, inf t => if s = t then inf s else nan
  | inf s, fin _ => inf s
  | fin _, inf s => inf s
  | fin a, fin b => fin (a + b)

/-- Python `*` on floats.  (Signed zeros are not modelled.) -/
def mul : PyFloat → PyFloat → PyFloat
  | nan, _ => nan
  | _, nan => nan
  | inf s, inf t => inf (xor s t)
  | inf s, fin q => if q = 0 then nan else inf (xor s (decide (q < 0)))
  | fin q, inf s => if q = 0 then nan else inf (xor s (decide (q < 0)))
  | fin a, fin b => fin (a * b)

/-- Python `/` on floats.  Division by zero raises `ZeroDivisionError` in
Python; it is unreachable in this program (the caller guards on a truthy
denominator), and is mapped to `nan` here to keep the function total. -/
def div : PyFloat → PyFloat → PyFloat
  | nan, _ => nan
  | _, nan => nan
  | inf _, inf _ => nan
  | inf s, fin q => inf (xor s (decide (q < 0)))
  | fin _, inf _ => fin 0
  | fin a, fin b => if b = 0 then nan else fin (a / b)

/-- Python `abs` on floats. -/
def pyAbs : PyFloat → PyFloat
  | fin q => fin |q|
  | inf _ => inf false
  | nan => nan

/-- Python `>` on floats: any comparison involving `nan` is false. -/
def pyGt : PyFloat → PyFloat → Bool
  | nan, _ => false
  | _, nan => false
  | fin a, fin b => decide (b < a)
  | inf s, fin _ => !s
  | fin _, inf s => s
  | inf s, inf t => !s && t

/-- Python `!=` on floats (`nan != x` is always true). -/
def pyNe : PyFloat → PyFloat → Bool
  | nan, _ => true
  | _, nan => true
  | fin a, fin b => decide (a ≠ b)
  | inf s, inf t => decide (s ≠ t)
  | fin _, inf _ => true
  | inf _, fin _ => true

end PyFloat

/-! ### Character classes and low-level string helpers -/

/-- The ASCII characters matched by Python's regex `\s` and stripped by
`str.strip()` / `float()`. -/
def pySpace (c : Char) : Bool :=
  c = ' ' || c = '\t' || c = '\n' || c = '\r' || c = '\x0b' || c = '\x0c'

/-- The currency glyphs removed by the source's `re.sub(r"[\$€¥£]", "", ...)`. -/
def isCurrency (c : Char) : Bool :=
  c = '$' || c = '€' || c = '¥' || c = '£'

/-- Python `str.strip()` restricted to ASCII whitespace. -/
def stripWS (l : List Char) : List Char :=
  ((l.dropWhile pySpace).reverse.dropWhile pySpace).reverse

/-- Replace every occurrence of character `a` by `b`
(Python `str.replace` for single characters). -/
def replaceChar (a b : Char) (l : List Char) : List Char :=
  l.map (fun c => if c = a then b else c)

/-! ### The model of Python's `float(...)` string parser

Grammar implemented (after stripping whitespace): optional sign, then
either the case-insensitive literals `inf` / `infinity` / `nan`, or a
decimal mantissa (digits with optional single dot, underscores allowed
between digits) with an optional `e`/`E` exponent. -/

/-- Tail of a digit group: digits, with single underscores allowed
only between digits. -/
def dgTail : List Char → Bool
  | [] => true
  | '_' :: c :: rest => c.isDigit && dgTail rest
  | '_' :: [] => false
  | c :: rest => c.isDigit && dgTail rest

/-- A nonempty run of digits, possibly with underscores between digits
(Python's `digitpart`). -/
def isDigitGroup : List Char → Bool
  | [] => false
  | c :: rest => c.isDigit && dgTail rest

/-- Numeric value of a digit group, ignoring underscores. -/
def digitsVal (l : List Char) : ℕ :=
  l.foldl (fun acc c => if c.isDigit then 10 * acc + (c.toNat - 48) else acc) 0

/-- Split a list at the first occurrence of a character satisfying `p`
(the separator is dropped); `none` if no such character occurs. -/
def splitFirst (p : Char → Bool) : List Char → Option (List Char × List Char)
  | [] => none
  | c :: rest =>
    if p c then some ([], rest)
    else
      match splitFirst p rest with
      | some (a, b) => some (c :: a, b)
      | none => none

/-- Leading `+`/`-` sign of a numeric literal: returns
(isNegative, remainder). -/
def readSign : List Char → Bool × List Char
  | '-' :: rest => (true, rest)
  | '+' :: rest => (false, rest)
  | l => (false, l)

/-- Case-insensitive comparison of `l` against an (already lowercase)
target. -/
def eqCI (l : List Char) (target : List Char) : Bool :=
  l.map Char.toLower == target

/-- Parse an unsigned decimal mantissa (Python `digitpart [. digitpart]`,
at least one digit overall). -/
def parseMantissa (l : List Char) : Option ℚ :=
  match splitFirst (fun c => c = '.') l with
  | none => if isDigitGroup l then some ((digitsVal l : ℕ) : ℚ) else none
  | some (ip, fp) =>
    if fp.contains '.' then none
    else if (ip.isEmpty || isDigitGroup ip) && (fp.isEmpty || isDigitGroup fp)
            && !(ip.isEmpty && fp.isEmpty) then
      some ((digitsVal ip : ℚ) + (digitsVal fp : ℚ) / 10 ^ (fp.filter Char.isDigit).length)
    else none

/-- Parse a signed exponent part (after `e`/`E`). -/
def parseExpPart (l : List Char) : Option ℤ :=
  match readSign l with
  | (neg, r) =>
    if isDigitGroup r then
      some (if neg then -(digitsVal r : ℤ) else (digitsVal r : ℤ))
    else none

/-- Does the list contain an exponent marker `e`/`E`? -/
def hasExpChar (l : List Char) : Bool :=
  l.any (fun c => c = 'e' || c = 'E')

/-- Model of Python's `float(str)` conversion on the modelled grammar:
`none` models the `ValueError` raised on malformed input. -/
def pyFloatOfChars (l0 : List Char) : Option PyFloat :=
  match readSign (stripWS l0) with
  | (neg, l) =>
    if eqCI l "inf".toList || eqCI l "infinity".toList then some (.inf neg)
    else if eqCI l "nan".toList then some .nan
    else
      match splitFirst (fun c => c = 'e' || c = 'E') l with
      | none => (parseMantissa l).map (fun q => .fin (if neg then -q else q))
      | some (mant, ex) =>
        if hasExpChar ex then none
        else
          match parseMantissa mant, parseExpPart ex with
          | some q, some e =>
            some (.fin (if neg then -(q * (10 : ℚ) ^ e) else q * (10 : ℚ) ^ e))
          | _, _ => none

/-! ### The Numeric Token Parser `parse_amount`

Direct embedding of `parse_amount` (src lines 59-83):

    text = text.strip()
    if re.match(r"^-?\d{1,3}(?:\.\d{3})+,\d+$", text):
        clean_text = text.replace(".", "").replace(",", ".")
    else:
        clean_text = text.replace(",", "")
    clean_text = re.sub(r"[\$€¥£]", "", clean_text)
    try: return float(clean_text)
    except ValueError: return None
-/

/-- Tail of the European-format regex after the leading digit block:
one or more groups `\.\d{3}`, then `,\d+` at end of string. -/
def euroTail : List Char → Bool
  | '.' :: a :: b :: c :: rest =>
    a.isDigit && b.isDigit && c.isDigit &&
      (match rest with
       | ',' :: ds => !ds.isEmpty && ds.all Char.isDigit
       | _ => euroTail rest)
  | _ => false

/-- Model of `re.match(r"^-?\d{1,3}(?:\.\d{3})+,\d+$", text)` (full
match on the stripped token). -/
def euroMatch (l0 : List Char) : Bool :=
  let l := match l0 with
    | '-' :: r => r
    | r => r
  let run := l.takeWhile Char.isDigit
  let rest := l.dropWhile Char.isDigit
  decide (1 ≤ run.length) && decide (run.length ≤ 3) && euroTail rest

/-- The core of `parse_amount`, working on character lists. -/
def parse_amountChars (l : List Char) : Option PyFloat :=
  pyFloatOfChars
    ((if euroMatch (stripWS l) then
        replaceChar ',' '.' ((stripWS l).filter (fun c => !(c = '.')))
      else (stripWS l).filter (fun c => !(c = ','))).filter
      (fun c => !(isCurrency c)))

/-- Python `parse_amount(text: str) -> Optional[float]`. -/
def parse_amount (text : String) : Option PyFloat :=
  parse_amountChars text.toList

/-! ### Metric keys and the resolution state -/

/-- The five metric keys of the extractor. -/
inductive MetricKey : Type where
  | income | cogs | expenses | other_expenses | net_income
deriving DecidableEq, Repr

/-- The `metrics` dictionary of `extract_metrics_from_text`: each key maps
to `None` (unresolved) or a resolved float. -/
structure Metrics : Type where
  income : Option PyFloat
  cogs : Option PyFloat
  expenses : Option PyFloat
  other_expenses : Option PyFloat
  net_income : Option PyFloat
deriving DecidableEq, Repr

/-- Look a metric up in the resolution state (`metrics[key]`). -/
def Metrics.get (m : Metrics) : MetricKey → Option PyFloat
  | .income => m.income
  | .cogs => m.cogs
  | .expenses => m.expenses
  | .other_expenses => m.other_expenses
  | .net_income => m.net_income

/-- Record a resolved value (`metrics[key] = value`). -/
def Metrics.set (m : Metrics) : MetricKey → PyFloat → Metrics
  | .income, v => { m with income := some v }
  | .cogs, v => { m with cogs := some v }
  | .expenses, v => { m with expenses := some v }
  | .other_expenses, v => { m with other_expenses := some v }
  | .net_income, v => { m with net_income := some v }

/-- The initial, all-unresolved state. -/
def initMetrics : Metrics := ⟨none, none, none, none, none⟩

/-- Python `None in metrics.values()`. -/
def anyNone (m : Metrics) : Bool :=
  m.income.isNone || m.cogs.isNone || m.expenses.isNone ||
    m.other_expenses.isNone || m.net_income.isNone

/-! ### Text utilities used by the Aggregator -/

/-- Model of `re.sub(r"\s+", " ", text)`: every maximal whitespace run is
replaced by a single space.  The boolean argument records whether the
previous character was whitespace. -/
def flattenAux : Bool → List Char → List Char
  | _, [] => []
  | inRun, c :: rest =>
    if pySpace c then
      if inRun then flattenAux true rest else ' ' :: flattenAux true rest
    else c :: flattenAux false rest

/-- Whitespace-collapsed text (`flat_text` in the source). -/
def pyFlatten (l : List Char) : List Char := flattenAux false l

/-- Model of `str.splitlines()` on `\n`, `\r\n` and `\r` terminators.
The accumulator holds the current (reversed) line. -/
def splitlinesAux : List Char → List Char → List (List Char)
  | cur, [] => if cur.isEmpty then [] else [cur.reverse]
  | cur, c :: rest =>
    if c = '\n' then cur.reverse :: splitlinesAux [] rest
    else if c = '\r' then
      match rest with
      | r2 :: rest2 =>
        if r2 = '\n' then cur.reverse :: splitlinesAux [] rest2
        else cur.reverse :: splitlinesAux [] (r2 :: rest2)
      | [] => cur.reverse :: splitlinesAux [] []
    else splitlinesAux (c :: cur) rest

/-- Python `text.splitlines()`. -/
def pySplitlines (l : List Char) : List (List Char) := splitlinesAux [] l

/-- Model of `re.split(r"\s+", s)`: split on maximal whitespace runs
(like `re.split`, a leading or trailing run contributes an empty token).
The state is `none` while inside a whitespace run, otherwise the current
(reversed) token. -/
def splitWSAux : Option (List Char) → List Char → List (List Char)
  | none, [] => [[]]
  | some cur, [] => [cur.reverse]
  | none, c :: rest =>
    if pySpace c then splitWSAux none rest else splitWSAux (some [c]) rest
  | some cur, c :: rest =>
    if pySpace c then cur.reverse :: splitWSAux none rest
    else splitWSAux (some (c :: cur)) rest

/-- Split a candidate line into whitespace-separated tokens. -/
def splitWS (l : List Char) : List (List Char) := splitWSAux (some []) l

/-- Does `l` start with the (already lowercased) keyword `kw`?
(Python `lower_line.startswith(kw)`.) -/
def startsWithKw : List Char → List Char → Bool
  | _, [] => true
  | [], _ :: _ => false
  | c :: cs, k :: ks => c == k && startsWithKw cs ks

/-! ### The Value Locator `scan_for_number` (src lines 139-164) -/

/-- Contribution of one whitespace-separated token to the candidate list:
only tokens containing a digit (`re.search(r"\d", tok)`) are parsed, and
only successful parses are collected. -/
def tokContrib (tok : List Char) : List PyFloat :=
  if tok.any Char.isDigit then
    match parse_amountChars tok with
    | some n => [n]
    | none => []
  else []

/-- All numeric candidates collected from one line of the window:
the line is stripped, skipped if empty, currency glyphs are removed,
and each digit-bearing token is parsed. -/
def lineNums (cand : List Char) : List PyFloat :=
  if (stripWS cand).isEmpty then []
  else
    (splitWS ((stripWS cand).filter (fun c => !(isCurrency c)))).foldl
      (fun acc tok => acc ++ tokContrib tok) []

/-- All numeric candidates collected over the 10-line window
`range(start_index, min(len(lines), start_index + 10))`. -/
def windowNums (lines : List (List Char)) (start_index : ℕ) : List PyFloat :=
  ((lines.drop start_index).take 10).foldl (fun acc cand => acc ++ lineNums cand) []

/-- Python `max(numbers, key=abs)`: fold keeping the current best, which
is replaced only when a strictly greater key appears (so the first
occurrence wins ties). -/
def maxByAbs : PyFloat → List PyFloat → PyFloat
  | b, [] => b
  | b, x :: rest =>
    maxByAbs (if PyFloat.pyGt (PyFloat.pyAbs x) (PyFloat.pyAbs b) then x else b) rest

/-- The Value Locator `scan_for_number(start_index)` over the captured
`lines`. -/
def scan_for_number (lines : List (List Char)) (start_index : ℕ) : Option PyFloat :=
  match windowNums lines start_index with
  | [] => none
  | n :: rest => some (maxByAbs n rest)

/-! ### The Label Matcher catalog and the line-scanning pass
(src lines 130-176) -/

/-- The `label_map` of the source, with all keywords lowercase. -/
def label_map : List (MetricKey × List (List Char)) :=
  [(.income, ["total for income".toList, "total de ingresos".toList]),
   (.cogs, ["total for cost of goods sold".toList, "costo de ventas".toList,
            "total del costo de ventas".toList]),
   (.expenses, ["total for expenses".toList, "total de gastos".toList]),
   (.other_expenses, ["total for other expenses".toList, "otros gastos".toList]),
   (.net_income, ["net income".toList, "utilidad neta".toList, "ingreso neto".toList])]

/-- One `label_map` entry processed for one line: if the metric is still
unresolved and the stripped lowercased line starts with one of its
keywords, `scan_for_number(i + 1)` is invoked and a found value recorded.
(The source breaks out of the keyword loop after the first matching
keyword; since the scan does not depend on the keyword, this equals the
`any` test.) -/
def lineStepEntry (lines : List (List Char)) (i : ℕ) (lower_line : List Char)
    (acc : Metrics) (kv : MetricKey × List (List Char)) : Metrics :=
  if (acc.get kv.1).isSome then acc
  else if kv.2.any (fun kw => startsWithKw lower_line kw) then
    match scan_for_number lines (i + 1) with
    | some v => acc.set kv.1 v
    | none => acc
  else acc

/-- Processing of one line of the scanning loop (the body of
`for i, line in enumerate(lines)`). -/
def lineStep (lines : List (List Char)) (i : ℕ) (line : List Char) (m : Metrics) :
    Metrics :=
  label_map.foldl (lineStepEntry lines i ((stripWS line).map Char.toLower)) m

/-- The whole line-by-line scanning pass. -/
def scanLines (lines : List (List Char)) (m0 : Metrics) : Metrics :=
  lines.enum.foldl (fun m p => lineStep lines p.1 p.2 m) m0

/-! ### The Direct-Adjacency (regex) pass (src lines 100-125)

The patterns are
`(?:Total for Income|Total de ingresos)\s*\$?([-]?[0-9][0-9.,]*)` and
`(?:Net Income|Utilidad neta|Ingreso neto)\s*\$?([-]?[0-9][0-9.,]*)`
searched case-insensitively in the flattened text. -/

/-- A character the greedy capture tail `[0-9.,]*` accepts. -/
def numTailChar (c : Char) : Bool :=
  c.isDigit || c = '.' || c = ','

/-- Match `\s*\$?([-]?[0-9][0-9.,]*)` at the start of `l` and return the
captured group (`\s*`, `\$?` and `[-]?` are greedy but their character
sets are disjoint from `[0-9]`, so no backtracking can change the
result). -/
def matchCapture (l : List Char) : Option (List Char) :=
  let l1 := l.dropWhile pySpace
  let l2 := match l1 with
    | '$' :: r => r
    | r => r
  match l2 with
  | '-' :: c :: rest =>
    if c.isDigit then some ('-' :: c :: rest.takeWhile numTailChar) else none
  | c :: rest =>
    if c.isDigit then some (c :: rest.takeWhile numTailChar) else none
  | [] => none

/-- Try every label alternative (in pattern order) at the current
position; on a label hit whose tail fails to capture, the regex engine
backtracks into the alternation, i.e. tries the next alternative. -/
def tryLabels : List (List Char) → List Char → Option (List Char)
  | [], _ => none
  | kw :: kws, l =>
    if (l.take kw.length).map Char.toLower == kw then
      match matchCapture (l.drop kw.length) with
      | some cap => some cap
      | none => tryLabels kws l
    else tryLabels kws l

/-- Model of `re.search` for these patterns: scan positions left to
right, returning the first successful capture. -/
def regexSearchCapture (labels : List (List Char)) : List Char → Option (List Char)
  | [] => none
  | c :: rest =>
    match tryLabels labels (c :: rest) with
    | some cap => some cap
    | none => regexSearchCapture labels rest

/-- Label alternatives of `regex_patterns["income"]`, lowercased. -/
def incomeRegexLabels : List (List Char) :=
  ["total for income".toList, "total de ingresos".toList]

/-- Label alternatives of `regex_patterns["net_income"]`, lowercased. -/
def netIncomeRegexLabels : List (List Char) :=
  ["net income".toList, "utilidad neta".toList, "ingreso neto".toList]

/-- Apply one regex pattern: on a search hit, parse the captured group
and record the value if parsing succeeds. -/
def applyRegexEntry (flat : List Char) (key : MetricKey) (labels : List (List Char))
    (m : Metrics) : Metrics :=
  match regexSearchCapture labels flat with
  | some cap =>
    match parse_amountChars cap with
    | some a => m.set key a
    | none => m
  | none => m

/-- The whole Direct-Adjacency pass over the flattened text, in the
iteration order of `regex_patterns` (income, then net_income). -/
def regexPhase (text : String) : Metrics :=
  applyRegexEntry (pyFlatten text.toList) .net_income netIncomeRegexLabels
    (applyRegexEntry (pyFlatten text.toList) .income incomeRegexLabels initMetrics)

/-! ### Derived metrics and output assembly (src lines 178-206) -/

/-- Python `metrics.get(key) or 0.0`: an unresolved or falsy value
becomes `0.0`. -/
def orZero : Option PyFloat → PyFloat
  | some v => if v.truthy then v else .fin 0
  | none => .fin 0

/-- The derived `total_expenses = cogs + expenses + other_expenses`. -/
def totalExpensesOf (m : Metrics) : PyFloat :=
  ((orZero m.cogs).add (orZero m.expenses)).add (orZero m.other_expenses)

/-- The derived `margin`: `(net_income / income) * 100` computed exactly
when `income and income != 0 and net_income is not None`. -/
def marginOf (m : Metrics) : Option PyFloat :=
  match m.income, m.net_income with
  | some inc, some ni =>
    if inc.truthy && PyFloat.pyNe inc (.fin 0) then
      some ((ni.div inc).mul (.fin 100))
    else none
  | _, _ => none

/-- The emitted result dictionary, as an ordered key/value list. -/
def buildResult (m : Metrics) : List (String × PyFloat) :=
  (match m.income with
   | some v => [("income", v)]
   | none => [])
  ++ (if (orZero m.cogs).truthy then [("cogs", orZero m.cogs)] else [])
  ++ (if (orZero m.expenses).truthy then [("expenses", orZero m.expenses)] else [])
  ++ (if (orZero m.other_expenses).truthy then
        [("other_expenses", orZero m.other_expenses)] else [])
  ++ (match m.net_income with
      | some v => [("net_income", v)]
      | none => [])
  ++ (if (totalExpensesOf m).truthy then [("total_expenses", totalExpensesOf m)] else [])
  ++ (match marginOf m with
      | some v => [("margin", v)]
      | none => [])

/-- The final resolution state of one extraction run: the regex pass,
followed (only if some metric is unresolved) by the line-scanning pass. -/
def finalMetrics (text : String) : Metrics :=
  if anyNone (regexPhase text) then scanLines (pySplitlines text.toList) (regexPhase text)
  else regexPhase text

/-- Python `extract_metrics_from_text(text: str) -> Dict[str, float]`. -/
def extract_metrics_from_text (text : String) : List (String × PyFloat) :=
  buildResult (finalMetrics text)

/-- Does the Aggregator's output contain a given key? -/
def hasKey (r : List (String × PyFloat)) (k : String) : Prop :=
  k ∈ r.map Prod.fst

/-! ## Claim theorems -/

/-- Claim C3: `parse_amount` resolves separator conventions as specified:
`parse_amount("1.234,56")` is `1234.56` (European convention),
`parse_amount("846,432.15")` is `846432.15` (US convention), and
`parse_amount("-1,200")` is `-1200.0`; a leading minus sign is handled
correctly in both conventions (`"-1.234,56"` and `"-846,432.15"`). -/
theorem claim3_separator_disambiguation :
    parse_amount "1.234,56" = some (.fin 1234.56) ∧
    parse_amount "846,432.15" = some (.fin 846432.15) ∧
    parse_amount "-1,200" = some (.fin (-1200)) ∧
    parse_amount "-1.234,56" = some (.fin (-1234.56)) ∧
    parse_amount "-846,432.15" = some (.fin (-846432.15)) := by
  refine ⟨?_, ?_, ?_, ?_, ?_⟩ <;> decide!

/-- Claim C4 (code bug, evaluation at the failing input): the code removes
currency glyphs only *after* disambiguating the separator convention, so a
currency-prefixed European-format token fails the European regex, its
periods are stripped as US thousands separators, and `"€1.234,56"` (and
`"$1.234,56"`) parse to `1.23456` instead of the specified `1234.56`.
A currency-free European token and a currency-prefixed US token are
unaffected. -/
theorem claim4_currency_strip_order_bug :
    parse_amount "€1.234,56" = some (.fin 1.23456) ∧
    parse_amount "$1.234,56" = some (.fin 1.23456) ∧
    parse_amount "1.234,56" = some (.fin 1234.56) ∧
    parse_amount "€1,234.56" = some (.fin 1234.56) := by
  refine ⟨?_, ?_, ?_, ?_⟩ <;> decide!

/-- Claim C8: `parse_amount` is a total function over strings: every input
yields either a float value or `None` (the `ValueError` of `float(...)`
is caught and mapped to `None`; no exception escapes). -/
theorem claim8_parse_amount_total (s : String) :
    parse_amount s = none ∨ ∃ v, parse_amount s = some v := by
  cases h : parse_amount s with
  | none => exact Or.inl rfl
  | some v => exact Or.inr ⟨v, rfl⟩

/-- Claim C8 witness at a concrete input. -/
theorem claim8_witness :
    parse_amount "12x" = none ∨ ∃ v, parse_amount "12x" = some v :=
  claim8_parse_amount_total "12x"

/-- Claim C2: the Value Locator examines exactly the 10-line forward
window beginning at `start_index`: its result depends only on
`(lines.drop start_index).take 10`; it returns `None` exactly when the
window contains no parseable numeric token; a parseable value 11 lines
after a label (window positions are `start_index ... start_index + 9`) is
never selected and the metric stays unresolved, while a value on the
10th window line is still selected. -/
theorem claim2_window_boundary :
    (∀ (lines1 lines2 : List (List Char)) (s : ℕ),
      (lines1.drop s).take 10 = (lines2.drop s).take 10 →
      scan_for_number lines1 s = scan_for_number lines2 s) ∧
    (∀ (lines : List (List Char)) (s : ℕ),
      scan_for_number lines s = none ↔ windowNums lines s = []) ∧
    scan_for_number ("lbl".toList :: (List.replicate 10 "x".toList ++ ["500".toList])) 1
      = none ∧
    scan_for_number ("lbl".toList :: (List.replicate 9 "x".toList ++ ["500".toList])) 1
      = some (.fin 500) ∧
    extract_metrics_from_text "Total for Expenses\nx\nx\nx\nx\nx\nx\nx\nx\nx\nx\n500"
      = [] ∧
    extract_metrics_from_text "Total for Expenses\nx\nx\nx\nx\nx\nx\nx\nx\nx\n500"
      = [("expenses", .fin 500), ("total_expenses", .fin 500)] := by
  refine ⟨?_, ?_, by decide!, by decide!, by decide!, by decide!⟩
  · intro lines1 lines2 s h
    have hw : windowNums lines1 s = windowNums lines2 s := by
      unfold windowNums; rw [h]
    unfold scan_for_number; rw [hw]
  · intro lines s
    unfold scan_for_number
    cases h : windowNums lines s with
    | nil => simp
    | cons n rest => simp

/-- Claim C2 witness: the window-locality part applied at concrete inputs
whose 10-line windows agree but whose 12th lines differ. -/
theorem claim2_witness :
    scan_for_number ("a".toList :: (List.replicate 10 "7".toList ++ ["88".toList])) 1 =
      scan_for_number ("a".toList :: (List.replicate 10 "7".toList ++ ["99".toList])) 1 :=
  claim2_window_boundary.1 _ _ 1 (by decide)

/-! ### Preservation of resolved metrics (for claim C7) -/

/-- Setting a different key leaves a metric untouched. -/
theorem Metrics.get_set_ne (m : Metrics) {k k' : MetricKey} (v : PyFloat)
    (h : k ≠ k') : (m.set k' v).get k = m.get k := by
  cases k <;> cases k' <;>
    first
      | exact absurd rfl h
      | simp [Metrics.set, Metrics.get]

/-- One `label_map` entry never overwrites an already-resolved metric. -/
theorem lineStepEntry_preserves (lines : List (List Char)) (i : ℕ)
    (lower_line : List Char) (kv : MetricKey × List (List Char)) (acc : Metrics)
    {k : MetricKey} {v : PyFloat} (h : acc.get k = some v) :
    (lineStepEntry lines i lower_line acc kv).get k = some v := by
  unfold lineStepEntry
  by_cases hk : k = kv.1
  · subst hk
    simp [h]
  · split
    · exact h
    · split
      · split
        · rw [Metrics.get_set_ne _ _ hk]; exact h
        · exact h
      · exact h

/-- Folding `lineStepEntry` over any entry list preserves resolved
metrics. -/
theorem foldl_lineStepEntry_preserves (lines : List (List Char)) (i : ℕ)
    (lower_line : List Char) (es : List (MetricKey × List (List Char)))
    {k : MetricKey} {v : PyFloat} :
    ∀ (acc : Metrics), acc.get k = some v →
      (es.foldl (lineStepEntry lines i lower_line) acc).get k = some v := by
  induction es with
  | nil => intro acc h; exact h
  | cons kv es ih =>
    intro acc h
    exact ih _ (lineStepEntry_preserves lines i lower_line kv acc h)

/-- One line of the scanning loop preserves resolved metrics. -/
theorem lineStep_preserves (lines : List (List Char)) (i : ℕ) (line : List Char)
    (m : Metrics) {k : MetricKey} {v : PyFloat} (h : m.get k = some v) :
    (lineStep lines i line m).get k = some v :=
  foldl_lineStepEntry_preserves lines i _ label_map m h

/-- Claim C7: once a metric key is resolved it is never overwritten during
the same extraction run: the line-scanning pass preserves every
already-resolved value (so a regex-pass value survives scanning, and after
the first successful resolution during scanning, later label matches for
that metric are skipped), and consequently any value resolved by the
Direct-Adjacency pass is still the final value. -/
theorem claim7_first_resolution_wins :
    (∀ (lines : List (List Char)) (m : Metrics) (k : MetricKey) (v : PyFloat),
      m.get k = some v → (scanLines lines m).get k = some v) ∧
    (∀ (text : String) (k : MetricKey) (v : PyFloat),
      (regexPhase text).get k = some v → (finalMetrics text).get k = some v) := by
  have hscan : ∀ (lines : List (List Char))
      (ps : List (ℕ × List Char)) (m : Metrics) (k : MetricKey) (v : PyFloat),
      m.get k = some v →
      (ps.foldl (fun m p => lineStep lines p.1 p.2 m) m).get k = some v := by
    intro lines ps
    induction ps with
    | nil => intro m k v h; exact h
    | cons p ps ih =>
      intro m k v h
      exact ih _ _ _ (lineStep_preserves lines p.1 p.2 m h)
  constructor
  · intro lines m k v h
    exact hscan lines lines.enum m k v h
  · intro text k v h
    unfold finalMetrics
    split
    · exact hscan _ _ _ _ _ h
    · exact h

/-- Claim C7 witness: a pre-resolved `income` value survives a scanning
pass over lines that would otherwise match `income` with a different
value. -/
theorem claim7_witness :
    (scanLines ["total for income".toList, "999".toList]
      ⟨some (.fin 7), none, none, none, none⟩).get .income = some (.fin 7) :=
  claim7_first_resolution_wins.1 _ _ .income (.fin 7) rfl

/-! ### Derived metrics (claim C6) -/

/-- Python `(some q) or 0.0` is `q` itself for finite values (a falsy
`0.0` is replaced by the equal value `0.0`). -/
theorem orZero_fin (q : ℚ) : orZero (some (.fin q)) = .fin q := by
  by_cases h : q = 0 <;> simp [orZero, PyFloat.truthy, h]

/-- Claim C6: the derived metrics are pure functions of the resolved
metrics: `total_expenses` is `cogs + expenses + other_expenses` with
unresolved components treated as zero; `margin` is defined exactly when
`income` is resolved and non-zero and `net_income` is resolved, in which
case it equals `net_income / income * 100`; in particular
`cogs=100, expenses=50, other_expenses=25` gives `total_expenses=175`,
and `income=1000, net_income=100` gives `margin=10.0`. -/
theorem claim6_derived_metrics :
    (∀ (inc net : Option PyFloat) (a b c : Option ℚ),
      totalExpensesOf ⟨inc, a.map .fin, b.map .fin, c.map .fin, net⟩ =
        .fin (a.getD 0 + b.getD 0 + c.getD 0)) ∧
    (∀ m : Metrics, (marginOf m).isSome = true ↔
      ((∃ v, m.income = some v ∧ v ≠ .fin 0) ∧ m.net_income.isSome = true)) ∧
    (∀ (m : Metrics) (i n : ℚ), m.income = some (.fin i) → i ≠ 0 →
      m.net_income = some (.fin n) → marginOf m = some (.fin (n / i * 100))) ∧
    totalExpensesOf ⟨none, some (.fin 100), some (.fin 50), some (.fin 25), none⟩ =
      .fin 175 ∧
    marginOf ⟨some (.fin 1000), none, none, none, some (.fin 100)⟩ =
      some (.fin 10) := by
  refine ⟨?_, ?_, ?_, by decide!, by decide!⟩
  · intro inc net a b c
    cases a <;> cases b <;> cases c <;>
      simp [totalExpensesOf, orZero_fin,
        show orZero none = .fin 0 from rfl,
        show ∀ x y : ℚ, (PyFloat.fin x).add (.fin y) = .fin (x + y) from fun _ _ => rfl]
  · intro m
    rcases m with ⟨inc, cg, ex, ot, net⟩
    cases inc with
    | none => simp [marginOf]
    | some v =>
      cases net with
      | none => simp [marginOf]
      | some w =>
        cases v with
        | fin q =>
          by_cases hq : q = 0 <;>
            simp [marginOf, PyFloat.truthy, PyFloat.pyNe, hq]
        | inf s => simp [marginOf, PyFloat.truthy, PyFloat.pyNe]
        | nan => simp [marginOf, PyFloat.truthy, PyFloat.pyNe]
  · intro m i n hi hne hn
    rcases m with ⟨inc, cg, ex, ot, net⟩
    simp only at hi hn
    subst hi; subst hn
    simp [marginOf, PyFloat.truthy, PyFloat.pyNe, hne, PyFloat.div, PyFloat.mul]

/-- Claim C6 witness: the general clauses applied at concrete states. -/
theorem claim6_witness :
    totalExpensesOf ⟨none, some (.fin 100), none, some (.fin 25), none⟩ =
      .fin 125 ∧
    marginOf ⟨some (.fin 200), none, none, none, some (.fin 50)⟩ =
      some (.fin (50 / 200 * 100)) := by
  constructor
  · have h := claim6_derived_metrics.1 none none (some 100) none (some 25)
    rw [show ((some (100 : ℚ)).getD 0 + (none : Option ℚ).getD 0 +
      (some (25 : ℚ)).getD 0) = 125 from by norm_num] at h
    exact h
  · exact claim6_derived_metrics.2.2.1 _ 200 50 rfl (by norm_num) rfl

/-! ### Output assembly (claim C5) -/

/-- Python float truthiness characterised: truthy exactly when not `0.0`. -/
theorem PyFloat.truthy_iff (v : PyFloat) : v.truthy = true ↔ v ≠ .fin 0 := by
  cases v with
  | fin q => simp [truthy]
  | inf s => simp [truthy]
  | nan => simp [truthy]

/-- The `or`-defaulted value is truthy exactly when the metric was
resolved to a non-zero value. -/
theorem orZero_truthy_iff (o : Option PyFloat) :
    (orZero o).truthy = true ↔ ∃ v, o = some v ∧ v ≠ .fin 0 := by
  cases o with
  | none =>
    simp [orZero, PyFloat.truthy]
  | some v =>
    by_cases h : v.truthy = true
    · have he : orZero (some v) = v := by simp [orZero, h]
      rw [he, PyFloat.truthy_iff]
      simp
    · have hv : v = .fin 0 := by
        by_contra hne
        exact h ((PyFloat.truthy_iff v).mpr hne)
      subst hv
      simp [orZero, PyFloat.truthy]

/-- Which keys the emitted dictionary contains, as a function of the
final resolution state. -/
theorem hasKey_buildResult (m : Metrics) (k : String) :
    hasKey (buildResult m) k ↔
      (k = "income" ∧ m.income.isSome = true) ∨
      (k = "cogs" ∧ (orZero m.cogs).truthy = true) ∨
      (k = "expenses" ∧ (orZero m.expenses).truthy = true) ∨
      (k = "other_expenses" ∧ (orZero m.other_expenses).truthy = true) ∨
      (k = "net_income" ∧ m.net_income.isSome = true) ∨
      (k = "total_expenses" ∧ (totalExpensesOf m).truthy = true) ∨
      (k = "margin" ∧ (marginOf m).isSome = true) := by
  unfold hasKey buildResult
  cases hI : m.income <;> cases hN : m.net_income <;> cases hM : marginOf m <;>
    by_cases h1 : (orZero m.cogs).truthy = true <;>
    by_cases h2 : (orZero m.expenses).truthy = true <;>
    by_cases h3 : (orZero m.other_expenses).truthy = true <;>
    by_cases h4 : (totalExpensesOf m).truthy = true <;>
      simp [h1, h2, h3, h4]

/-- Claim C5: the Aggregator's output contains `income` iff it is
resolved; contains each of `cogs`, `expenses`, `other_expenses` iff that
metric is resolved with a non-zero value (a resolved zero is absent);
contains `net_income` iff it is resolved (including a resolved zero);
contains `total_expenses` iff the derived total is non-zero; and contains
`margin` iff the margin is computable. -/
theorem claim5_output_keys (text : String) :
    (hasKey (extract_metrics_from_text text) "income" ↔
      (finalMetrics text).income.isSome = true) ∧
    (hasKey (extract_metrics_from_text text) "cogs" ↔
      ∃ v, (finalMetrics text).cogs = some v ∧ v ≠ .fin 0) ∧
    (hasKey (extract_metrics_from_text text) "expenses" ↔
      ∃ v, (finalMetrics text).expenses = some v ∧ v ≠ .fin 0) ∧
    (hasKey (extract_metrics_from_text text) "other_expenses" ↔
      ∃ v, (finalMetrics text).other_expenses = some v ∧ v ≠ .fin 0) ∧
    (hasKey (extract_metrics_from_text text) "net_income" ↔
      (finalMetrics text).net_income.isSome = true) ∧
    (hasKey (extract_metrics_from_text text) "total_expenses" ↔
      totalExpensesOf (finalMetrics text) ≠ .fin 0) ∧
    (hasKey (extract_metrics_from_text text) "margin" ↔
      (marginOf (finalMetrics text)).isSome = true) := by
  unfold extract_metrics_from_text
  refine ⟨?_, ?_, ?_, ?_, ?_, ?_, ?_⟩ <;> rw [hasKey_buildResult]
  · simp
  · simp [orZero_truthy_iff]
  · simp [orZero_truthy_iff]
  · simp [orZero_truthy_iff]
  · simp
  · simp [PyFloat.truthy_iff]
  · simp

/-- Claim C5 witness: on a text resolving only `net_income` (to zero),
the output contains `net_income` and no `margin`. -/
theorem claim5_witness :
    hasKey (extract_metrics_from_text "Net Income 0") "net_income" ∧
    ¬ hasKey (extract_metrics_from_text "Net Income 0") "margin" :=
  ⟨(claim5_output_keys "Net Income 0").2.2.2.2.1.mpr (by decide!),
   fun h => by
    have := (claim5_output_keys "Net Income 0").2.2.2.2.2.2.mp h
    rw [show marginOf (finalMetrics "Net Income 0") = none from by decide!] at this
    simp at this⟩

/-! ### Digit tracking through the cleaning pipeline
(infrastructure for claims C1 and C9) -/

/-- A digit is unchanged by `Char.toLower`. -/
theorem digit_toLower (c : Char) (h : c.isDigit = true) : c.toLower = c := by
  simp [Char.isDigit] at h
  have h2 : c.val.toNat ≤ 57 := h.2
  unfold Char.toLower
  rw [if_neg]
  simp [Char.toNat]
  omega

/-- A digit differs from any non-digit character. -/
theorem digit_ne (c d : Char) (h : c.isDigit = true) (hd : d.isDigit = false) :
    c ≠ d := by
  intro he
  subst he
  rw [h] at hd
  cases hd

/-- Digits are not whitespace. -/
theorem digit_not_space (c : Char) (h : c.isDigit = true) : pySpace c = false := by
  simp [Char.isDigit] at h
  have h1 : 48 ≤ c.val.toNat := h.1
  have h2 : c.val.toNat ≤ 57 := h.2
  cases hs : pySpace c with
  | false => rfl
  | true =>
    exfalso
    simp [pySpace] at hs
    rcases hs with ((((rfl | rfl) | rfl) | rfl) | rfl) | rfl <;> revert h1 h2 <;> decide

/-- Digits are not currency glyphs. -/
theorem digit_not_currency (c : Char) (h : c.isDigit = true) : isCurrency c = false := by
  cases hs : isCurrency c with
  | false => rfl
  | true =>
    exfalso
    simp [isCurrency] at hs
    rcases hs with ((rfl | rfl) | rfl) | rfl <;> exact absurd h (by decide)

/-- Dropping leading whitespace keeps some digit present. -/
theorem any_digit_dropWhile (l : List Char) (h : l.any Char.isDigit = true) :
    (l.dropWhile pySpace).any Char.isDigit = true := by
  induction l with
  | nil => simp at h
  | cons c rest ih =>
    rw [List.dropWhile_cons]
    by_cases hc : pySpace c = true
    · rw [if_pos hc]
      rcases List.any_eq_true.mp h with ⟨x, hx, hdx⟩
      rcases List.mem_cons.mp hx with rfl | hx'
      · rw [digit_not_space x hdx] at hc; cases hc
      · exact ih (List.any_eq_true.mpr ⟨x, hx', hdx⟩)
    · rw [if_neg hc]; exact h

/-- Stripping keeps some digit present. -/
theorem any_digit_stripWS (l : List Char) (h : l.any Char.isDigit = true) :
    (stripWS l).any Char.isDigit = true := by
  unfold stripWS
  rw [List.any_reverse]
  apply any_digit_dropWhile
  rw [List.any_reverse]
  exact any_digit_dropWhile l h

/-- Filtering with a predicate that keeps digits keeps some digit
present. -/
theorem any_digit_filter (f : Char → Bool) (hf : ∀ c, c.isDigit = true → f c = true)
    (l : List Char) (h : l.any Char.isDigit = true) :
    (l.filter f).any Char.isDigit = true := by
  rcases List.any_eq_true.mp h with ⟨x, hx, hdx⟩
  exact List.any_eq_true.mpr ⟨x, List.mem_filter.mpr ⟨hx, hf x hdx⟩, hdx⟩

/-- Rewriting commas to periods keeps some digit present. -/
theorem any_digit_replaceChar (l : List Char) (h : l.any Char.isDigit = true) :
    (replaceChar ',' '.' l).any Char.isDigit = true := by
  rcases List.any_eq_true.mp h with ⟨x, hx, hdx⟩
  refine List.any_eq_true.mpr ⟨x, ?_, hdx⟩
  unfold replaceChar
  refine List.mem_map.mpr ⟨x, hx, ?_⟩
  rw [if_neg (digit_ne x ',' hdx (by decide))]

/-- Reading the sign keeps some digit present. -/
theorem readSign_snd_any (l : List Char) (h : l.any Char.isDigit = true) :
    (readSign l).2.any Char.isDigit = true := by
  unfold readSign
  split
  · next rest =>
    simp only [List.any_cons, Bool.or_eq_true] at h
    rcases h with hd | hrest
    · cases (by decide : ('-').isDigit = false) ▸ hd
    · exact hrest
  · next rest =>
    simp only [List.any_cons, Bool.or_eq_true] at h
    rcases h with hd | hrest
    · cases (by decide : ('+').isDigit = false) ▸ hd
    · exact hrest
  · exact h

/-- Case-insensitive comparison against a digit-free target fails when a
digit is present. -/
theorem eqCI_no_digit (t l : List Char) (ht : ∀ x ∈ t, x.isDigit = false)
    (h : l.any Char.isDigit = true) : eqCI l t = false := by
  cases hB : eqCI l t
  · rfl
  · exfalso
    have heq : l.map Char.toLower = t := by
      unfold eqCI at hB
      exact eq_of_beq hB
    rcases List.any_eq_true.mp h with ⟨d, hd, hdd⟩
    have hmem : d ∈ t := by
      rw [← heq]
      exact List.mem_map.mpr ⟨d, hd, digit_toLower d hdd⟩
    have := ht d hmem
    rw [this] at hdd
    cases hdd

/-- If the cleaned characters still contain a digit, a successful
`float(...)` conversion yields a finite value (the special literals
`inf`/`infinity`/`nan` are digit-free). -/
theorem pyFloatOfChars_fin_of_digit (l : List Char) (h : l.any Char.isDigit = true)
    (v : PyFloat) (hv : pyFloatOfChars l = some v) : ∃ q, v = .fin q := by
  have h1 : (stripWS l).any Char.isDigit = true := any_digit_stripWS l h
  have h2 : (readSign (stripWS l)).2.any Char.isDigit = true := readSign_snd_any _ h1
  unfold pyFloatOfChars at hv
  rcases hr : readSign (stripWS l) with ⟨neg, l'⟩
  rw [hr] at hv h2
  simp only at hv h2
  rw [eqCI_no_digit _ _ (by decide) h2, eqCI_no_digit _ _ (by decide) h2,
    eqCI_no_digit _ _ (by decide) h2] at hv
  simp only [Bool.or_self, Bool.false_eq_true, if_false] at hv
  cases hs : splitFirst (fun c => c = 'e' || c = 'E') l' with
  | none =>
    rw [hs] at hv
    rcases Option.map_eq_some'.mp hv with ⟨q, _, hq⟩
    exact ⟨if neg then -q else q, hq.symm⟩
  | some p =>
    rcases p with ⟨mant, ex⟩
    rw [hs] at hv
    dsimp only at hv
    by_cases hx : hasExpChar ex = true
    · rw [if_pos hx] at hv; cases hv
    · rw [if_neg hx] at hv
      cases hm : parseMantissa mant with
      | none => rw [hm] at hv; cases hv
      | some q =>
        cases he : parseExpPart ex with
        | none => rw [hm, he] at hv; cases hv
        | some e =>
          rw [hm, he] at hv
          refine ⟨if neg then -(q * (10 : ℚ) ^ e) else q * (10 : ℚ) ^ e, ?_⟩
          exact (Option.some.injEq _ _ ▸ hv).symm

/-- A token containing a digit that parses successfully yields a finite
value: the cleaning steps of `parse_amount` never remove digits. -/
theorem parse_amountChars_fin_of_digit (tok : List Char)
    (h : tok.any Char.isDigit = true) (v : PyFloat)
    (hv : parse_amountChars tok = some v) : ∃ q, v = .fin q := by
  unfold parse_amountChars at hv
  apply pyFloatOfChars_fin_of_digit _ ?_ v hv
  apply any_digit_filter _ (fun c hc => by rw [digit_not_currency c hc]; rfl)
  by_cases he : euroMatch (stripWS tok) = true
  · rw [if_pos he]
    apply any_digit_replaceChar
    apply any_digit_filter _ (fun c hc => by simp [digit_ne c '.' hc (by decide)])
    exact any_digit_stripWS tok h
  · rw [if_neg he]
    apply any_digit_filter _ (fun c hc => by simp [digit_ne c ',' hc (by decide)])
    exact any_digit_stripWS tok h

/-! ### The candidate set of the Value Locator (claims C1 and C9) -/

/-- Membership in an append-accumulating fold. -/
theorem mem_foldl_append {α β : Type} (f : α → List β) (l : List α)
    (init : List β) (v : β) :
    (v ∈ l.foldl (fun acc x => acc ++ f x) init) ↔
      v ∈ init ∨ ∃ x ∈ l, v ∈ f x := by
  induction l generalizing init with
  | nil => simp
  | cons a l ih =>
    rw [List.foldl_cons, ih]
    simp [List.mem_append]
    tauto

/-- Every collected window candidate comes from some line of the
10-line window. -/
theorem windowNums_mem (lines : List (List Char)) (s : ℕ) (v : PyFloat)
    (hv : v ∈ windowNums lines s) :
    ∃ cand ∈ (lines.drop s).take 10, v ∈ lineNums cand := by
  unfold windowNums at hv
  rcases (mem_foldl_append _ _ _ _).mp hv with h0 | ⟨x, hx, hvx⟩
  · simp at h0
  · exact ⟨x, hx, hvx⟩

/-- Every candidate collected from a line comes from a digit-bearing
whitespace-separated token of the cleaned line, via a successful parse. -/
theorem lineNums_mem (cand : List Char) (v : PyFloat) (hv : v ∈ lineNums cand) :
    ∃ tok ∈ splitWS ((stripWS cand).filter (fun c => !(isCurrency c))),
      tok.any Char.isDigit = true ∧ parse_amountChars tok = some v := by
  unfold lineNums at hv
  by_cases hc : (stripWS cand).isEmpty = true
  · rw [if_pos hc] at hv; simp at hv
  · rw [if_neg hc] at hv
    rcases (mem_foldl_append _ _ _ _).mp hv with h0 | ⟨tok, htok, hvt⟩
    · simp at h0
    · refine ⟨tok, htok, ?_⟩
      unfold tokContrib at hvt
      by_cases hd : tok.any Char.isDigit = true
      · rw [if_pos hd] at hvt
        cases hp : parse_amountChars tok with
        | none =>
          rw [hp] at hvt
          exact absurd hvt (List.not_mem_nil v)
        | some n =>
          rw [hp] at hvt
          rw [List.mem_singleton] at hvt
          subst hvt
          exact ⟨hd, rfl⟩
      · rw [if_neg hd] at hvt
        exact absurd hvt (List.not_mem_nil v)

/-- Every candidate the Value Locator collects is a finite value (the
digit gate excludes the digit-free `inf`/`nan` literals). -/
theorem windowNums_allFin (lines : List (List Char)) (s : ℕ) (v : PyFloat)
    (hv : v ∈ windowNums lines s) : ∃ q, v = .fin q := by
  rcases windowNums_mem lines s v hv with ⟨cand, _, hvc⟩
  rcases lineNums_mem cand v hvc with ⟨tok, _, hd, hp⟩
  exact parse_amountChars_fin_of_digit tok hd v hp

/-! ### The magnitude tie-break policy (claim C1) -/

/-- The first-occurrence-of-greatest-absolute-magnitude specification:
`v` occurs in `l`, every earlier element has strictly smaller absolute
value and every later element has absolute value not exceeding `v`. -/
def FirstAbsMax (l : List PyFloat) (v : PyFloat) : Prop :=
  ∃ l₁ l₂, l = l₁ ++ v :: l₂ ∧
    (∀ u ∈ l₁, PyFloat.pyGt (PyFloat.pyAbs v) (PyFloat.pyAbs u) = true) ∧
    (∀ u ∈ l₂, PyFloat.pyGt (PyFloat.pyAbs u) (PyFloat.pyAbs v) = false)

/-- The abs-key comparison on finite values is the rational comparison. -/
theorem pyGt_abs_fin (p q : ℚ) :
    PyFloat.pyGt (PyFloat.pyAbs (.fin p)) (PyFloat.pyAbs (.fin q)) =
      decide (|q| < |p|) := rfl

/-- Unfolding equation for one step of the `max` fold. -/
theorem maxByAbs_cons (b x : PyFloat) (rest : List PyFloat) :
    maxByAbs b (x :: rest) =
      maxByAbs (if PyFloat.pyGt (PyFloat.pyAbs x) (PyFloat.pyAbs b) then x else b) rest :=
  rfl

/-- Python's `max(numbers, key=abs)` fold returns the first occurrence of
the greatest absolute magnitude, for lists of finite values. -/
theorem maxByAbs_firstAbsMax :
    ∀ (l : List PyFloat) (b : PyFloat),
      (∀ x ∈ b :: l, ∃ q, x = PyFloat.fin q) →
      FirstAbsMax (b :: l) (maxByAbs b l) := by
  intro l
  induction l with
  | nil =>
    intro b _
    exact ⟨[], [], rfl, by simp, by simp⟩
  | cons x rest ih =>
    intro b hfin
    rcases hfin b (by simp) with ⟨qb, rfl⟩
    rcases hfin x (by simp) with ⟨qx, rfl⟩
    have hallx : ∀ y ∈ PyFloat.fin qx :: rest, ∃ q, y = PyFloat.fin q := by
      intro y hy
      exact hfin y (by simp [List.mem_cons] at hy ⊢; tauto)
    have hallb : ∀ y ∈ PyFloat.fin qb :: rest, ∃ q, y = PyFloat.fin q := by
      intro y hy
      exact hfin y (by simp [List.mem_cons] at hy ⊢; tauto)
    by_cases hgt : |qb| < |qx|
    · have hstep : maxByAbs (.fin qb) (.fin qx :: rest) = maxByAbs (.fin qx) rest := by
        rw [maxByAbs_cons, pyGt_abs_fin]
        simp [hgt]
      rw [hstep]
      rcases ih (.fin qx) hallx with ⟨l₁, l₂, hdec, hpre, hpost⟩
      refine ⟨.fin qb :: l₁, l₂, by rw [List.cons_append, ← hdec], ?_, hpost⟩
      intro u hu
      rcases List.mem_cons.mp hu with rfl | hu'
      · -- the replaced best is strictly below the new head, hence below the max
        have hrm : maxByAbs (.fin qx) rest ∈ PyFloat.fin qx :: rest := by
          rw [hdec]
          exact List.mem_append_right _ (List.mem_cons_self _ _)
        rcases hallx _ hrm with ⟨qr, hqr⟩
        cases hl₁ : l₁ with
        | nil =>
          rw [hl₁] at hdec
          have hx : maxByAbs (.fin qx) rest = .fin qx :=
            ((List.cons.injEq _ _ _ _).mp hdec.symm).1
          rw [hx, pyGt_abs_fin]
          simpa using hgt
        | cons h1 t1 =>
          rw [hl₁] at hdec
          have hx : h1 = .fin qx := ((List.cons.injEq _ _ _ _).mp hdec.symm).1
          have hxl : PyFloat.fin qx ∈ l₁ := by rw [hl₁, ← hx]; simp
          have hstrict := hpre _ hxl
          rw [hqr] at hstrict ⊢
          rw [pyGt_abs_fin] at hstrict ⊢
          simp only [decide_eq_true_eq] at hstrict ⊢
          exact lt_trans hgt hstrict
      · exact hpre u hu'
    · have hstep : maxByAbs (.fin qb) (.fin qx :: rest) = maxByAbs (.fin qb) rest := by
        rw [maxByAbs_cons, pyGt_abs_fin]
        simp [hgt]
      rw [hstep]
      rcases ih (.fin qb) hallb with ⟨l₁, l₂, hdec, hpre, hpost⟩
      have hrm : maxByAbs (.fin qb) rest ∈ PyFloat.fin qb :: rest := by
        rw [hdec]
        exact List.mem_append_right _ (List.mem_cons_self _ _)
      rcases hallb _ hrm with ⟨qr, hqr⟩
      cases hl₁ : l₁ with
      | nil =>
        rw [hl₁] at hdec
        have hb : maxByAbs (.fin qb) rest = .fin qb :=
          ((List.cons.injEq _ _ _ _).mp hdec.symm).1
        have hrest : rest = l₂ := ((List.cons.injEq _ _ _ _).mp hdec).2
        refine ⟨[], .fin qx :: l₂, by rw [hb, ← hrest]; simp, by simp, ?_⟩
        intro u hu
        rcases List.mem_cons.mp hu with rfl | hu'
        · rw [hb, pyGt_abs_fin]
          simpa using hgt
        · exact hpost u hu'
      | cons h1 t1 =>
        rw [hl₁] at hdec
        have hb : h1 = .fin qb := ((List.cons.injEq _ _ _ _).mp hdec.symm).1
        have hrest : rest = t1 ++ maxByAbs (.fin qb) rest :: l₂ :=
          ((List.cons.injEq _ _ _ _).mp hdec).2
        have hbl : PyFloat.fin qb ∈ l₁ := by rw [hl₁, ← hb]; simp
        have hbstrict := hpre _ hbl
        refine ⟨.fin qb :: .fin qx :: t1, l₂,
          by rw [List.cons_append, List.cons_append, ← hrest], ?_, hpost⟩
        intro u hu
        rcases List.mem_cons.mp hu with rfl | hu'
        · exact hbstrict
        rcases List.mem_cons.mp hu' with rfl | hu''
        · -- the skipped head x of the pair loses to b which loses to the max
          rw [hqr] at hbstrict ⊢
          rw [pyGt_abs_fin] at hbstrict ⊢
          simp only [decide_eq_true_eq] at hbstrict ⊢
          exact lt_of_le_of_lt (not_lt.mp hgt) hbstrict
        · exact hpre u (by rw [hl₁]; simp [hu''])

/-- Claim C1: whenever the Value Locator returns a value, that value is,
among all numeric values collected over its window, the one with the
greatest absolute magnitude, ties broken by first occurrence; in
particular on window lines `100`, `-500`, `42` it returns `-500`. -/
theorem claim1_value_locator_abs_max :
    (∀ (lines : List (List Char)) (s : ℕ) (v : PyFloat),
      scan_for_number lines s = some v → FirstAbsMax (windowNums lines s) v) ∧
    scan_for_number ["100".toList, "-500".toList, "42".toList] 0 =
      some (.fin (-500)) := by
  constructor
  · intro lines s v hv
    unfold scan_for_number at hv
    cases hw : windowNums lines s with
    | nil => rw [hw] at hv; cases hv
    | cons n rest =>
      rw [hw] at hv
      rw [Option.some.injEq] at hv
      subst hv
      have hfin : ∀ x ∈ n :: rest, ∃ q, x = PyFloat.fin q := by
        intro x hx
        exact windowNums_allFin lines s x (hw ▸ hx)
      exact maxByAbs_firstAbsMax rest n hfin
  · decide!

/-- Claim C1 witness: the general clause applied to the concrete window,
exhibiting the decomposition around `-500`. -/
theorem claim1_witness :
    FirstAbsMax (windowNums ["100".toList, "-500".toList, "42".toList] 0)
      (.fin (-500)) :=
  claim1_value_locator_abs_max.1 _ 0 _ claim1_value_locator_abs_max.2

/-! ### Digit-free tokens never yield finite values (claim C9) -/

/-- Stripping only removes characters. -/
theorem mem_stripWS {x : Char} {l : List Char} (h : x ∈ stripWS l) : x ∈ l := by
  unfold stripWS at h
  rw [List.mem_reverse] at h
  have h1 := (List.dropWhile_sublist (l := (l.dropWhile pySpace).reverse) pySpace).subset h
  rw [List.mem_reverse] at h1
  exact (List.dropWhile_sublist (l := l) pySpace).subset h1

/-- Reading the sign only removes characters. -/
theorem mem_readSign_snd {x : Char} {l : List Char} (h : x ∈ (readSign l).2) : x ∈ l := by
  revert h
  unfold readSign
  split
  · intro h; exact List.mem_cons_of_mem _ h
  · intro h; exact List.mem_cons_of_mem _ h
  · intro h; exact h

/-- Both parts of `splitFirst` are made of characters of the input. -/
theorem splitFirst_subset (p : Char → Bool) :
    ∀ (l a b : List Char), splitFirst p l = some (a, b) →
      (∀ x ∈ a, x ∈ l) ∧ (∀ x ∈ b, x ∈ l) := by
  intro l
  induction l with
  | nil => intro a b h; cases h
  | cons c rest ih =>
    intro a b h
    unfold splitFirst at h
    by_cases hc : p c = true
    · rw [if_pos hc, Option.some.injEq, Prod.mk.injEq] at h
      rcases h with ⟨rfl, rfl⟩
      constructor
      · intro x hx
        cases hx
      · intro x hx
        exact List.mem_cons_of_mem _ hx
    · rw [if_neg hc] at h
      cases hs : splitFirst p rest with
      | none => rw [hs] at h; cases h
      | some pr =>
        rcases pr with ⟨a1, b1⟩
        rw [hs, Option.some.injEq, Prod.mk.injEq] at h
        rcases h with ⟨rfl, rfl⟩
        rcases ih a1 b1 hs with ⟨ha, hb⟩
        constructor
        · intro x hx
          rcases List.mem_cons.mp hx with rfl | hx1
          · exact List.mem_cons_self _ _
          · exact List.mem_cons_of_mem _ (ha x hx1)
        · intro x hx
          exact List.mem_cons_of_mem _ (hb x hx)

/-- A digit group contains a digit. -/
theorem isDigitGroup_digit (l : List Char) (h : isDigitGroup l = true) :
    l.any Char.isDigit = true := by
  cases l with
  | nil => cases h
  | cons c rest =>
    unfold isDigitGroup at h
    rw [Bool.and_eq_true] at h
    exact List.any_eq_true.mpr ⟨c, List.mem_cons_self _ _, h.1⟩

/-- A successful mantissa parse requires a digit in the parsed list. -/
theorem parseMantissa_some_digit (l : List Char) (q : ℚ)
    (h : parseMantissa l = some q) : l.any Char.isDigit = true := by
  unfold parseMantissa at h
  cases hs : splitFirst (fun c => c = '.') l with
  | none =>
    rw [hs] at h
    by_cases hg : isDigitGroup l = true
    · exact isDigitGroup_digit l hg
    · rw [if_neg hg] at h; cases h
  | some p =>
    rcases p with ⟨ip, fp⟩
    rw [hs] at h
    dsimp only at h
    rcases splitFirst_subset _ l ip fp hs with ⟨hip, hfp⟩
    by_cases hdot : fp.contains '.' = true
    · rw [if_pos hdot] at h; cases h
    · rw [if_neg hdot] at h
      by_cases hcond : ((ip.isEmpty || isDigitGroup ip) && (fp.isEmpty || isDigitGroup fp)
          && !(ip.isEmpty && fp.isEmpty)) = true
      · have hcond' := hcond
        rw [Bool.and_eq_true, Bool.and_eq_true] at hcond'
        rcases hcond' with ⟨⟨hi, hf⟩, hne⟩
        by_cases hie : ip.isEmpty = true
        · -- then fp is a nonempty digit group
          have hfe : fp.isEmpty = false := by
            cases hfe : fp.isEmpty
            · rfl
            · rw [hie, hfe] at hne; simp at hne
          rw [hfe] at hf
          rw [Bool.or_eq_true] at hf
          rcases hf with hff | hfg
          · cases hff
          · rcases List.any_eq_true.mp (isDigitGroup_digit fp hfg) with ⟨d, hd, hdd⟩
            exact List.any_eq_true.mpr ⟨d, hfp d hd, hdd⟩
        · rw [Bool.or_eq_true] at hi
          rcases hi with hif | hig
          · exact absurd hif hie
          · rcases List.any_eq_true.mp (isDigitGroup_digit ip hig) with ⟨d, hd, hdd⟩
            exact List.any_eq_true.mpr ⟨d, hip d hd, hdd⟩
      · rw [if_neg hcond] at h; cases h

/-- A finite `float(...)` result requires a digit in the input. -/
theorem pyFloatOfChars_fin_digit (l : List Char) (q : ℚ)
    (h : pyFloatOfChars l = some (.fin q)) : l.any Char.isDigit = true := by
  unfold pyFloatOfChars at h
  rcases hr : readSign (stripWS l) with ⟨neg, l'⟩
  rw [hr] at h
  dsimp only at h
  have hup : l'.any Char.isDigit = true → l.any Char.isDigit = true := by
    intro ha
    rcases List.any_eq_true.mp ha with ⟨d, hd, hdd⟩
    have : d ∈ stripWS l := by
      have : d ∈ (readSign (stripWS l)).2 := by rw [hr]; exact hd
      exact mem_readSign_snd this
    exact List.any_eq_true.mpr ⟨d, mem_stripWS this, hdd⟩
  by_cases h1 : (eqCI l' "inf".toList || eqCI l' "infinity".toList) = true
  · rw [if_pos h1, Option.some.injEq] at h; cases h
  · rw [if_neg h1] at h
    by_cases h2 : eqCI l' "nan".toList = true
    · rw [if_pos h2, Option.some.injEq] at h; cases h
    · rw [if_neg h2] at h
      cases hs : splitFirst (fun c => c = 'e' || c = 'E') l' with
      | none =>
        rw [hs] at h
        rcases Option.map_eq_some'.mp h with ⟨q', hq', _⟩
        exact hup (parseMantissa_some_digit l' q' hq')
      | some p =>
        rcases p with ⟨mant, ex⟩
        rw [hs] at h
        dsimp only at h
        by_cases hx : hasExpChar ex = true
        · rw [if_pos hx] at h; cases h
        · rw [if_neg hx] at h
          cases hm : parseMantissa mant with
          | none => rw [hm] at h; cases h
          | some q' =>
            cases he : parseExpPart ex with
            | none => rw [hm, he] at h; cases h
            | some e =>
              apply hup
              rcases List.any_eq_true.mp (parseMantissa_some_digit mant q' hm) with
                ⟨d, hd, hdd⟩
              exact List.any_eq_true.mpr
                ⟨d, (splitFirst_subset _ l' mant ex hs).1 d hd, hdd⟩

/-- A finite `parse_amount` result requires a digit in the token: the
cleaning steps never introduce digits. -/
theorem parse_amountChars_fin_digit (tok : List Char) (q : ℚ)
    (h : parse_amountChars tok = some (.fin q)) : tok.any Char.isDigit = true := by
  unfold parse_amountChars at h
  have hclean := pyFloatOfChars_fin_digit _ q h
  rcases List.any_eq_true.mp hclean with ⟨d, hd, hdd⟩
  have hd1 := (List.mem_filter.mp hd).1
  by_cases he : euroMatch (stripWS tok) = true
  · rw [if_pos he] at hd1
    unfold replaceChar at hd1
    rcases List.mem_map.mp hd1 with ⟨c, hc, hcd⟩
    by_cases hcc : c = ','
    · rw [if_pos hcc] at hcd
      rw [← hcd] at hdd
      cases hdd
    · rw [if_neg hcc] at hcd
      subst hcd
      exact List.any_eq_true.mpr
        ⟨c, mem_stripWS (List.mem_filter.mp hc).1, hdd⟩
  · rw [if_neg he] at hd1
    exact List.any_eq_true.mpr
      ⟨d, mem_stripWS (List.mem_filter.mp hd1).1, hdd⟩

/-- Claim C9 counterexample: the digit-free token `"inf"` *does* yield a
value from the numeric parsing step — Python's `float("inf")` succeeds —
so "for every token with no digit the numeric parsing step produces no
value" is false as stated. -/
theorem claim9_counterexample :
    ("inf".toList.any Char.isDigit = false) ∧
    parse_amount "inf" = some (.inf false) := by
  exact ⟨by decide, by decide!⟩

/-- Claim C9 (amended): a token with no digit never contributes a value
to the Value Locator's candidate set (the digit gate filters it before
parsing); every collected candidate stems from a digit-bearing token; and
the numeric parsing step never produces a *finite* value for a digit-free
token (the only digit-free parses are the literals `inf`/`infinity`/`nan`,
as exhibited by the counterexample). -/
theorem claim9_no_digit_no_value :
    (∀ tok : List Char, tok.any Char.isDigit = false → tokContrib tok = []) ∧
    (∀ (cand : List Char) (v : PyFloat), v ∈ lineNums cand →
      ∃ tok ∈ splitWS ((stripWS cand).filter (fun c => !(isCurrency c))),
        tok.any Char.isDigit = true ∧ parse_amountChars tok = some v) ∧
    (∀ (tok : List Char) (q : ℚ), tok.any Char.isDigit = false →
      parse_amountChars tok ≠ some (.fin q)) := by
  refine ⟨?_, lineNums_mem, ?_⟩
  · intro tok h
    unfold tokContrib
    rw [h]
    rfl
  · intro tok q h hp
    rw [parse_amountChars_fin_digit tok q hp] at h
    cases h

/-- Claim C9 witness: the amended clauses applied at concrete tokens. -/
theorem claim9_witness :
    tokContrib "n/a".toList = [] ∧
    parse_amountChars "goose".toList ≠ some (.fin 7) :=
  ⟨claim9_no_digit_no_value.1 _ (by decide),
   claim9_no_digit_no_value.2.2 _ 7 (by decide)⟩

/-! ### Whitespace-only inputs (claim C10) -/

/-- Whitespace characters are unchanged by `Char.toLower`. -/
theorem space_toLower (c : Char) (h : pySpace c = true) : c.toLower = c := by
  simp [pySpace] at h
  rcases h with ((((rfl | rfl) | rfl) | rfl) | rfl) | rfl <;> decide

/-- Flattening whitespace-only text yields whitespace-only text. -/
theorem flattenAux_all_space : ∀ (l : List Char) (b : Bool),
    l.all pySpace = true → (flattenAux b l).all pySpace = true := by
  intro l
  induction l with
  | nil => intro b _; rfl
  | cons c rest ih =>
    intro b h
    rw [List.all_cons, Bool.and_eq_true] at h
    unfold flattenAux
    rw [if_pos h.1]
    cases b with
    | true => exact ih true h.2
    | false =>
      rw [if_neg (by decide : ¬(false = true))]
      rw [List.all_cons, Bool.and_eq_true]
      exact ⟨by decide, ih true h.2⟩

/-- No label alternative matches at a whitespace-only position. -/
theorem tryLabels_all_space (kws : List (List Char))
    (hkw : ∀ kw ∈ kws, kw ≠ [] ∧ pySpace (kw.headD 'x') = false) :
    ∀ l : List Char, l.all pySpace = true → tryLabels kws l = none := by
  induction kws with
  | nil => intro l _; rfl
  | cons kw kws ih =>
    intro l h
    rcases hkw kw (List.mem_cons_self _ _) with ⟨hne, hhd⟩
    unfold tryLabels
    rw [if_neg, ih (fun k hk => hkw k (List.mem_cons_of_mem _ hk)) l h]
    intro hB
    have heq : (l.take kw.length).map Char.toLower = kw := eq_of_beq hB
    cases hkc : kw with
    | nil => exact hne hkc
    | cons k0 t =>
      subst hkc
      cases htk : l.take (k0 :: t).length with
      | nil => rw [htk] at heq; cases heq
      | cons c rest1 =>
        rw [htk] at heq
        rw [List.map_cons, List.cons.injEq] at heq
        have hcl : c ∈ l := (List.take_subset _ _) (htk ▸ List.mem_cons_self c rest1)
        have hcs : pySpace c = true := (List.all_eq_true.mp h) c hcl
        rw [space_toLower c hcs] at heq
        rw [heq.1] at hcs
        dsimp only [List.headD] at hhd
        rw [hcs] at hhd
        cases hhd

/-- The regex search finds nothing in whitespace-only text. -/
theorem regexSearchCapture_all_space (labels : List (List Char))
    (hkw : ∀ kw ∈ labels, kw ≠ [] ∧ pySpace (kw.headD 'x') = false) :
    ∀ l : List Char, l.all pySpace = true → regexSearchCapture labels l = none := by
  intro l
  induction l with
  | nil => intro _; rfl
  | cons c rest ih =>
    intro h
    unfold regexSearchCapture
    rw [tryLabels_all_space labels hkw _ h]
    apply ih
    rw [List.all_cons, Bool.and_eq_true] at h
    exact h.2

/-- All-whitespace lists have all-whitespace tails. -/
theorem all_space_tail {c : Char} {rest : List Char}
    (h : (c :: rest).all pySpace = true) : rest.all pySpace = true := by
  rw [List.all_cons, Bool.and_eq_true] at h
  exact h.2

/-- Splitting whitespace-only text into lines yields whitespace-only
lines. -/
theorem splitlinesAux_all_space : ∀ (cur l : List Char),
    cur.all pySpace = true → l.all pySpace = true →
    ∀ line ∈ splitlinesAux cur l, line.all pySpace = true := by
  intro cur l
  induction cur, l using splitlinesAux.induct with
  | case1 cur he =>
    intro _ _ line hline
    unfold splitlinesAux at hline
    rw [if_pos he] at hline
    cases hline
  | case2 cur he =>
    intro hcur _ line hline
    unfold splitlinesAux at hline
    rw [if_neg he, List.mem_singleton] at hline
    subst hline
    rw [List.all_reverse]
    exact hcur
  | case3 cur rest ih =>
    intro hcur hl line hline
    unfold splitlinesAux at hline
    rw [if_pos rfl] at hline
    rcases List.mem_cons.mp hline with rfl | hline2
    · rw [List.all_reverse]; exact hcur
    · exact ih rfl (all_space_tail hl) line hline2
  | case4 cur rest2 hne ih =>
    intro hcur hl line hline
    unfold splitlinesAux at hline
    rw [if_neg hne, if_pos rfl] at hline
    dsimp only at hline
    rw [if_pos rfl] at hline
    rcases List.mem_cons.mp hline with rfl | hline2
    · rw [List.all_reverse]; exact hcur
    · exact ih rfl (all_space_tail (all_space_tail hl)) line hline2
  | case5 cur r2 rest2 hr2 hne ih =>
    intro hcur hl line hline
    unfold splitlinesAux at hline
    rw [if_neg hne, if_pos rfl] at hline
    dsimp only at hline
    rw [if_neg hr2] at hline
    rcases List.mem_cons.mp hline with rfl | hline2
    · rw [List.all_reverse]; exact hcur
    · exact ih rfl (all_space_tail hl) line hline2
  | case6 cur hne ih =>
    intro hcur hl line hline
    unfold splitlinesAux at hline
    rw [if_neg hne, if_pos rfl] at hline
    dsimp only at hline
    rcases List.mem_cons.mp hline with rfl | hline2
    · rw [List.all_reverse]; exact hcur
    · exact ih rfl rfl line hline2
  | case7 cur c rest hn hr ih =>
    intro hcur hl line hline
    unfold splitlinesAux at hline
    rw [if_neg hn, if_neg hr] at hline
    refine ih ?_ (all_space_tail hl) line hline
    rw [List.all_cons, Bool.and_eq_true]
    rw [List.all_cons, Bool.and_eq_true] at hl
    exact ⟨hl.1, hcur⟩

/-- Stripping a whitespace-only line leaves nothing. -/
theorem stripWS_all_space (l : List Char) (h : l.all pySpace = true) :
    stripWS l = [] := by
  unfold stripWS
  rw [List.dropWhile_eq_nil_iff.mpr (fun x hx => List.all_eq_true.mp h x hx)]
  rfl

/-- With an empty lowercased line, no catalog entry fires. -/
theorem foldl_entry_empty_line (lines : List (List Char)) (i : ℕ)
    (es : List (MetricKey × List (List Char)))
    (hes : ∀ kv ∈ es, kv.2.any (fun kw => startsWithKw [] kw) = false) :
    ∀ m : Metrics, es.foldl (lineStepEntry lines i []) m = m := by
  induction es with
  | nil => intro m; rfl
  | cons kv es ih =>
    intro m
    rw [List.foldl_cons]
    have hstep : lineStepEntry lines i [] m kv = m := by
      unfold lineStepEntry
      rw [hes kv (List.mem_cons_self _ _)]
      split
      · rfl
      · simp
    rw [hstep]
    exact ih (fun kv hkv => hes kv (List.mem_cons_of_mem _ hkv)) m

/-- A whitespace-only line leaves the resolution state unchanged. -/
theorem lineStep_all_space (lines : List (List Char)) (i : ℕ) (line : List Char)
    (h : line.all pySpace = true) (m : Metrics) : lineStep lines i line m = m := by
  unfold lineStep
  rw [stripWS_all_space line h, List.map_nil]
  exact foldl_entry_empty_line lines i label_map (by decide) m

/-- Folding whitespace-only enumerated lines leaves the state
unchanged. -/
theorem foldl_lineStep_all_space (lines : List (List Char)) :
    ∀ (ps : List (ℕ × List Char)),
      (∀ p ∈ ps, (p.2 : List Char).all pySpace = true) →
      ∀ m : Metrics, ps.foldl (fun m p => lineStep lines p.1 p.2 m) m = m := by
  intro ps
  induction ps with
  | nil => intro _ m; rfl
  | cons p ps ih =>
    intro hps m
    rw [List.foldl_cons, lineStep_all_space lines p.1 p.2
      (hps p (List.mem_cons_self _ _)) m]
    exact ih (fun q hq => hps q (List.mem_cons_of_mem _ hq)) m

/-- Scanning whitespace-only lines leaves the resolution state
unchanged. -/
theorem scanLines_all_space (lines : List (List Char))
    (h : ∀ line ∈ lines, line.all pySpace = true) (m : Metrics) :
    scanLines lines m = m :=
  foldl_lineStep_all_space lines lines.enum
    (fun p hp => h p.2 (List.snd_mem_of_mem_enum hp)) m

/-- The Direct-Adjacency pass finds nothing in whitespace-only text. -/
theorem regexPhase_all_space (text : String) (h : text.toList.all pySpace = true) :
    regexPhase text = initMetrics := by
  unfold regexPhase applyRegexEntry pyFlatten
  rw [regexSearchCapture_all_space incomeRegexLabels (by decide) _
      (flattenAux_all_space _ false h),
    regexSearchCapture_all_space netIncomeRegexLabels (by decide) _
      (flattenAux_all_space _ false h)]

/-- Claim C10: for the empty input string, and for any input consisting
only of whitespace characters, the Aggregator returns the empty mapping
(no keys at all); no exception is raised (the embedding is total). -/
theorem claim10_empty_and_whitespace :
    extract_metrics_from_text "" = [] ∧
    (∀ s : String, s.toList.all pySpace = true →
      extract_metrics_from_text s = []) := by
  constructor
  · decide!
  · intro s h
    unfold extract_metrics_from_text finalMetrics
    rw [regexPhase_all_space s h]
    rw [if_pos (show anyNone initMetrics = true from rfl)]
    unfold pySplitlines
    rw [scanLines_all_space _ (splitlinesAux_all_space [] s.toList rfl h) _]
    decide!

/-- Claim C10 witness: the whitespace clause applied at a concrete
whitespace-only string. -/
theorem claim10_witness : extract_metrics_from_text "  \t\n \r " = [] :=
  claim10_empty_and_whitespace.2 "  \t\n \r " (by decide)
